import Mathlib

/-!
Verification development for the `inclinationmap` repository.

The repository consists of `csv_to_map.py` (CSV decoding, map construction
with two marker-placement modes, JSON-to-CSV conversion, and output-name
disambiguation) and `server.py` (the ingestion endpoint `do_POST`).

This file shallowly embeds the relevant program fragments:
* Python floats are modelled as exact rationals (`ℚ`); the decimal
  printing of a numeric value and the parsing performed by `int()` and
  `float()` are implemented explicitly over character lists.  The model's
  printer always uses plain decimal form (never scientific form); since
  both forms denote the same value and parsing accepts both, this is
  value-faithful.  `int()`/`float()` are modelled on their core grammar
  (optional sign, digits, decimal point, optional exponent); Python's
  tolerance for surrounding whitespace, underscores in numerals and the
  words inf/nan is not modelled.
* CSV rows are modelled as records of five cell strings (the csv module's
  quoting round-trips cell contents verbatim, so cells-as-strings is
  faithful).
* the trigonometric offsets of spread mode use `Real.cos`/`Real.sin`.
-/

/-- Marker colors used by `create_map` (csv_to_map.py lines 117-123 and 167-173). -/
inductive Color where
  | green
  | orange
  | blue
deriving DecidableEq

/-- A decoded data entry as produced by `read_csv_file` (csv_to_map.py lines 44-52):
index, the verbatim DateTime string, latitude, longitude and inclination. -/
structure Sample where
  index : ℤ
  datetime : String
  latitude : ℚ
  longitude : ℚ
  inclination : ℚ
deriving DecidableEq

/-- The inline color classification of `create_map` (identical in the cluster
branch, lines 117-123, and the spread branch, lines 167-173):
green if `abs(inclination) < 0.5`, else orange if `inclination < -0.5`, else blue. -/
def classifyColor (inclination : ℚ) : Color :=
  if |inclination| < 0.5 then Color.green
  else if inclination < -0.5 then Color.orange
  else Color.blue

/-! ### Decimal numerals over character lists -/

/-- Character for a decimal digit value (values `≥ 9` all map to `'9'`;
only used with digits `< 10`). -/
def digitChar : ℕ → Char
  | 0 => '0'
  | 1 => '1'
  | 2 => '2'
  | 3 => '3'
  | 4 => '4'
  | 5 => '5'
  | 6 => '6'
  | 7 => '7'
  | 8 => '8'
  | _ => '9'

/-- Numeric value of a digit character. -/
def charDigitVal (c : Char) : ℕ := c.toNat - 48

/-- Value of a digit string read most-significant first, as accumulated by
positional parsing. -/
def digitsVal (l : List Char) : ℕ := l.foldl (fun a c => 10 * a + charDigitVal c) 0

/-- Little-endian base-10 digits with explicit fuel (agrees with
`Nat.digits 10`; the fuel makes the definition reduce definitionally). -/
def natDigitsAux : ℕ → ℕ → List ℕ
  | 0, _ => []
  | _ + 1, 0 => []
  | fuel + 1, n + 1 => ((n + 1) % 10) :: natDigitsAux fuel ((n + 1) / 10)

/-- Little-endian base-10 digits of a natural number. -/
def natDigitsLE (n : ℕ) : List ℕ := natDigitsAux n n

/-- Decimal numeral of a natural number, most significant digit first
(Python `str` of a non-negative int). -/
def natChars (n : ℕ) : List Char :=
  if n = 0 then ['0'] else ((natDigitsLE n).reverse.map digitChar)

/-- Decimal numeral of an integer (Python `str` of an int). -/
def intChars (i : ℤ) : List Char :=
  if i < 0 then '-' :: natChars i.natAbs else natChars i.natAbs

/-- Parse an unsigned decimal numeral: all characters must be digits and
there must be at least one. -/
def parseNatDigits (l : List Char) : Option ℕ :=
  if l.isEmpty then none
  else if l.all Char.isDigit then some (digitsVal l) else none

/-- Model of Python `int(str)` on its core grammar: an optional sign
followed by a non-empty digit string (csv_to_map.py line 46). -/
def parseIntChars (l : List Char) : Option ℤ :=
  match l with
  | '-' :: rest => (parseNatDigits rest).map (fun n => -(n : ℤ))
  | '+' :: rest => (parseNatDigits rest).map (fun n => (n : ℤ))
  | l' => (parseNatDigits l').map (fun n => (n : ℤ))

/-- String-level `int()` model. -/
def parseInt (s : String) : Option ℤ := parseIntChars s.toList

/-! ### Decimal printing of rationals -/

/-- Search for the least exponent `e` below the fuel bound with `10^e % den = 0`. -/
def decExpAux (den : ℕ) : ℕ → ℕ → Option ℕ
  | _, 0 => none
  | e, fuel + 1 => if 10 ^ e % den = 0 then some e else decExpAux den (e + 1) fuel

/-- Least `e` with `den ∣ 10^e`, searched up to `den` (a denominator of the
form `2^a * 5^b` always admits such an `e ≤ den`). -/
def decExp (den : ℕ) : Option ℕ := decExpAux den 0 (den + 1)

/-- A rational has an exact finite decimal representation found by `decExp`.
Python floats are binary fractions, hence always in this domain; the predicate
is the model's rendering of "representable without precision loss". -/
def IsFiniteDecimal (q : ℚ) : Prop := (decExp q.den).isSome = true

instance (q : ℚ) : Decidable (IsFiniteDecimal q) := by
  unfold IsFiniteDecimal; infer_instance

/-- Digits of `r` left-padded with `'0'` to width `e` (the fractional part of
a fixed-point decimal). -/
def padDigits (e r : ℕ) : List Char :=
  List.replicate (e - ((natDigitsLE r).reverse.map digitChar).length) '0' ++
    ((natDigitsLE r).reverse.map digitChar)

/-- Decimal numeral of a rational number, modelling Python `str` on a float
value-faithfully: sign, integer part, `'.'`, fractional part.  A rational
outside the finite-decimal domain (which corresponds to no Python float)
prints as an unparseable placeholder. -/
def floatChars (q : ℚ) : List Char :=
  match decExp q.den with
  | none => ['?']
  | some e =>
    let m : ℕ := q.num.natAbs * (10 ^ e / q.den)
    let sign : List Char := if q < 0 then ['-'] else []
    if e = 0 then sign ++ natChars m ++ ['.', '0']
    else sign ++ natChars (m / 10 ^ e) ++ '.' :: padDigits e (m % 10 ^ e)

/-! ### Model of Python `float(str)` -/

/-- Split a character list at the first `'e'`/`'E'` (exponent marker). -/
def splitAtExpChar : List Char → List Char × Option (List Char)
  | [] => ([], none)
  | c :: t =>
    if c == 'e' || c == 'E' then ([], some t)
    else
      let p := splitAtExpChar t
      (c :: p.1, p.2)

/-- Parse the unsigned mantissa `digits [. digits]` with at least one digit. -/
def parseMantissa (l : List Char) : Option ℚ :=
  let ip := l.takeWhile Char.isDigit
  let rest := l.dropWhile Char.isDigit
  match rest with
  | [] => if ip.isEmpty then none else some ((digitsVal ip : ℚ))
  | '.' :: fp =>
    if fp.all Char.isDigit && !(ip.isEmpty && fp.isEmpty) then
      some ((digitsVal ip : ℚ) + (digitsVal fp : ℚ) / 10 ^ fp.length)
    else none
  | _ => none

/-- Strip an optional leading sign, returning the sign factor and the rest. -/
def stripSign : List Char → ℚ × List Char
  | '-' :: t => (-1, t)
  | '+' :: t => (1, t)
  | l => (1, l)

/-- Model of Python `float(str)` on its core grammar: optional sign, mantissa,
optional exponent part (csv_to_map.py lines 48-50). -/
def parseFloatChars (l : List Char) : Option ℚ :=
  let sl : ℚ × List Char := stripSign l
  let me := splitAtExpChar sl.2
  match parseMantissa me.1, me.2 with
  | some m, none => some (sl.1 * m)
  | some m, some el => (parseIntChars el).map (fun k => sl.1 * m * (10 : ℚ) ^ k)
  | none, _ => none

/-- String-level `float()` model. -/
def parseFloat (s : String) : Option ℚ := parseFloatChars s.toList

/-! ### Tabular rows and the CSV codec -/

/-- One CSV data row under the fixed header
`Index,DateTime,Latitude,Longitude,Inclination(degrees)`.  The csv module
quotes and unquotes cell text verbatim, so a row is five cell strings. -/
structure Row where
  indexCell : String
  dateTimeCell : String
  latitudeCell : String
  longitudeCell : String
  inclinationCell : String
deriving DecidableEq

/-- A JSON value as it can appear in a field of a received sample object:
an integer, a (finite decimal) number, or a string. -/
inductive JVal where
  | jint (n : ℤ)
  | jnum (q : ℚ)
  | jstr (s : String)
deriving DecidableEq

/-- One sample object of the raw JSON payload; `none` models an absent key
(`row.get(k, "")` then writes the empty cell). -/
structure JEntry where
  index : Option JVal
  dateTime : Option JVal
  latitude : Option JVal
  longitude : Option JVal
  inclination : Option JVal
deriving DecidableEq

/-- The raw batch payload: the `data` field of the received JSON object. -/
structure Payload where
  data : List JEntry
deriving DecidableEq

/-- Cell text written for a JSON field value: Python `str(value)`, or `""`
for an absent key (csv_to_map.py lines 244-248, likewise server.py 94-100). -/
def printJVal : Option JVal → String
  | none => ""
  | some (JVal.jint n) => (intChars n).asString
  | some (JVal.jnum q) => (floatChars q).asString
  | some (JVal.jstr s) => s

/-- Row written by `convert_json_to_csv` for one entry of the `data` list
(csv_to_map.py lines 241-250). -/
def encodeEntry (e : JEntry) : Row :=
  { indexCell := printJVal e.index
    dateTimeCell := printJVal e.dateTime
    latitudeCell := printJVal e.latitude
    longitudeCell := printJVal e.longitude
    inclinationCell := printJVal e.inclination }

/-- The tabular rows produced by `convert_json_to_csv` (csv_to_map.py
lines 224-254), one row per entry of the payload's `data` list, in order. -/
def convert_json_to_csv (p : Payload) : List Row := p.data.map encodeEntry

/-- Parse one CSV row into a `Sample`; fails when `Index` is not an integer
or one of `Latitude`, `Longitude`, `Inclination(degrees)` is not a float
(the try/except of csv_to_map.py lines 43-55). -/
def parseRow (r : Row) : Option Sample :=
  match parseInt r.indexCell, parseFloat r.latitudeCell,
        parseFloat r.longitudeCell, parseFloat r.inclinationCell with
  | some i, some la, some lo, some inc =>
    some { index := i, datetime := r.dateTimeCell,
           latitude := la, longitude := lo, inclination := inc }
  | _, _, _, _ => none

/-- The row loop of `read_csv_file` (csv_to_map.py lines 42-55): appends each
parseable row to the data list and counts one warning per dropped row. -/
def readRowsAux : List Row → List Sample × ℕ → List Sample × ℕ
  | [], acc => acc
  | r :: rs, (d, w) =>
    match parseRow r with
    | some s => readRowsAux rs (d ++ [s], w)
    | none => readRowsAux rs (d, w + 1)

/-- Decoded samples and emitted warning count of `read_csv_file`. -/
def read_csv_with_warnings (rows : List Row) : List Sample × ℕ :=
  readRowsAux rows ([], 0)

/-- Model of `read_csv_file` after the file is opened (csv_to_map.py
lines 42-61): `none` models the `EmptyBatchError` path (`if not data`). -/
def read_csv_file (rows : List Row) : Option (List Sample) :=
  let d := (read_csv_with_warnings rows).1
  if d = [] then none else some d

/-! ### The map model -/

/-- Marker placement mode of `create_map`. -/
inductive Mode where
  | cluster
  | spread
deriving DecidableEq

/-- Round-half-to-even on rationals (Python `round` ties-to-even). -/
def roundHalfEven (q : ℚ) : ℤ :=
  if q - ⌊q⌋ < 1/2 then ⌊q⌋
  else if 1/2 < q - ⌊q⌋ then ⌊q⌋ + 1
  else if 2 ∣ ⌊q⌋ then ⌊q⌋ else ⌊q⌋ + 1

/-- Python `round(x, 5)`: round to five decimal places, ties to even. -/
def rnd5 (q : ℚ) : ℚ := (roundHalfEven (q * 100000) : ℚ) / 100000

/-- The grouping key of the spread branch: latitude and longitude each
rounded to 5 decimal places (csv_to_map.py line 137). -/
def sampleKey (s : Sample) : ℚ × ℚ := (rnd5 s.latitude, rnd5 s.longitude)

/-- One step of `groups.setdefault(key, []).append(entry)` on an
insertion-ordered association list (Python dicts preserve insertion order). -/
def addToGroups (gs : List ((ℚ × ℚ) × List Sample)) (k : ℚ × ℚ) (s : Sample) :
    List ((ℚ × ℚ) × List Sample) :=
  match gs with
  | [] => [(k, [s])]
  | g :: t => if g.1 = k then (g.1, g.2 ++ [s]) :: t else g :: addToGroups t k s

/-- The grouping loop of the spread branch (csv_to_map.py lines 135-138). -/
def buildGroups (data : List Sample) : List ((ℚ × ℚ) × List Sample) :=
  data.foldl (fun gs s => addToGroups gs (sampleKey s) s) []

/-- Display position of the group member at 0-based position `i` in a group
of size `n` (csv_to_map.py lines 142-152): the true position if `n ≤ 1`,
otherwise offset by `radius = base_offset * (1 + i / 8)` at angle
`2π·i/n`. -/
noncomputable def displayPos (off : ℝ) (n i : ℕ) (lat lon : ℚ) : ℝ × ℝ :=
  if 1 < n then
    ((lat : ℝ) + Real.cos (2 * Real.pi * i / n) * (off * (1 + (i / 8 : ℕ))),
     (lon : ℝ) + Real.sin (2 * Real.pi * i / n) * (off * (1 + (i / 8 : ℕ))))
  else ((lat : ℝ), (lon : ℝ))

/-- One rendered marker: pinned position, icon color, and the tooltip data
(index and inclination) taken from the source sample. -/
structure Marker where
  position : ℝ × ℝ
  color : Color
  index : ℤ
  inclination : ℚ

/-- Marker built for a sample at a given pinned position; the color comes
from the inline classification (csv_to_map.py lines 117-131, 167-181). -/
def mkMarker (pos : ℝ × ℝ) (s : Sample) : Marker :=
  { position := pos, color := classifyColor s.inclination,
    index := s.index, inclination := s.inclination }

/-- Markers of the cluster branch: every marker at its true position
(csv_to_map.py lines 101-131). -/
def clusterMarkers (data : List Sample) : List Marker :=
  data.map (fun s => mkMarker ((s.latitude : ℝ), (s.longitude : ℝ)) s)

/-- Markers of the spread branch (csv_to_map.py lines 140-181), in group
order, each group's members in original batch order. -/
noncomputable def spreadMarkers (off : ℝ) (data : List Sample) : List Marker :=
  (buildGroups data).flatMap (fun g =>
    g.2.enum.map (fun is =>
      mkMarker (displayPos off g.2.length is.1 is.2.latitude is.2.longitude) is.2))

/-- The rendered map artifact: center coordinate, markers, and the single
connecting polyline. -/
structure MapModel where
  center : ℚ × ℚ
  markers : List Marker
  path : List (ℚ × ℚ)

/-- Model of `create_map` (csv_to_map.py lines 71-221): rejects an empty
batch (`return False`), centers the map on the coordinate means, places
markers according to the mode, and draws one polyline through all samples'
true coordinates in batch order. -/
noncomputable def create_map (data : List Sample) (mode : Mode) (off : ℝ) :
    Option MapModel :=
  if data = [] then none
  else some
    { center := ((data.map Sample.latitude).sum / (data.length : ℚ),
                 (data.map Sample.longitude).sum / (data.length : ℚ))
      markers :=
        match mode with
        | Mode.cluster => clusterMarkers data
        | Mode.spread => spreadMarkers off data
      path := data.map (fun s => (s.latitude, s.longitude)) }

/-! ### Output-name disambiguation (csv_to_map.py main, lines 279-289) -/

/-- Stem of `os.path.splitext` on the reversed character list: characters
after the first `'.'` of the reversal, i.e. before the last `'.'`. -/
def stemRevAux : List Char → Option (List Char)
  | [] => none
  | c :: t => if c == '.' then some t else stemRevAux t

/-- Model of `os.path.splitext(s)[0]` for plain file names: the part before
the last dot, or the whole name if there is no dot. -/
def splitextStem (s : String) : String :=
  match stemRevAux s.toList.reverse with
  | none => s
  | some r => r.reverse.asString

/-- Python `s[:-4]`: drop the last four characters. -/
def dropLast4 (s : String) : String :=
  (s.toList.take (s.toList.length - 4)).asString

/-- Python `f"{i:03d}"`: decimal numeral zero-padded to width at least 3. -/
def pad3 (i : ℕ) : String :=
  (List.replicate (3 - (natChars i).length) '0' ++ natChars i).asString

/-- The collision loop of `main` (csv_to_map.py lines 282-288), with explicit
fuel for the unbounded `while`: while the current name exists, rebuild it
with the next 3-digit suffix (re-deriving the stem; for suffix indices past 0
the previous `_NNN` suffix is first stripped with `[:-4]`). -/
def nextCsvNameAux (ex : String → Bool) : ℕ → String → ℕ → String
  | 0, csv, _ => csv
  | fuel + 1, csv, i =>
    if ex csv then
      nextCsvNameAux ex fuel
        (if i = 0 then splitextStem csv ++ "_" ++ pad3 i ++ ".csv"
         else dropLast4 (splitextStem csv) ++ "_" ++ pad3 i ++ ".csv")
        (i + 1)
    else csv

/-- Disambiguated CSV name for a derived name `csv0`, given the set of names
currently in use as the test `ex`. -/
def nextCsvName (ex : String → Bool) (fuel : ℕ) (csv0 : String) : String :=
  nextCsvNameAux ex fuel csv0 0

/-! ### The ingestion endpoint (server.py `do_POST`, lines 59-132) -/

/-- The response sent by `do_POST`: HTTP status code, the JSON body fields
`status`, `received` and `map` of the success path, and the plain-text error
body of the failure path. -/
structure PostResponse where
  code : ℕ
  status : Option String
  received : Option String
  map : Option String
  errorMsg : Option String
deriving DecidableEq

/-- Exit status of the `csv_to_map.py` subprocess on the written rows
(csv_to_map.py lines 293-306): 1 when decoding fails, otherwise 0 or 1 as
map creation succeeds or fails. -/
noncomputable def csv_to_map_exit (rows : List Row) (mode : Mode) (off : ℝ) : ℕ :=
  match read_csv_file rows with
  | none => 1
  | some d => if (create_map d mode off).isSome then 0 else 1

/-- Model of `do_POST` (server.py lines 59-132).  `payload = none` models a
body on which JSON parsing (or the `data` access) raises, caught by the
handler's `except` arm; `ts` is the request timestamp string.  File system
writes are modelled as succeeding.  The subprocess runs `csv_to_map.py` with
its CLI defaults (spread mode, offset 0.00002). -/
noncomputable def do_POST (path : String) (ts : String) (payload : Option Payload) :
    PostResponse :=
  if path ≠ "/data_collector" then
    { code := 404, status := none, received := none, map := none, errorMsg := none }
  else
    match payload with
    | none =>
      { code := 500, status := none, received := none, map := none,
        errorMsg := some "json error" }
    | some p =>
      let fname := "received_data/data_" ++ ts ++ ".json"
      let mapUrl : Option String :=
        if p.data ≠ [] then
          (if csv_to_map_exit (convert_json_to_csv p) Mode.spread 0.00002 = 0
           then some ("/created_maps/map_" ++ ts ++ ".html") else none)
        else none
      { code := 200, status := some "ok", received := some fname,
        map := mapUrl, errorMsg := none }

/-! ### Value semantics of JSON fields (for the round-trip law) -/

/-- Integer value carried by a JSON field when used as the `Index` cell:
an integer directly, or a string that `int()` accepts; a float-valued or
absent field has no integer value (Python `int("3.0")` raises). -/
def intValOf : Option JVal → Option ℤ
  | some (JVal.jint n) => some n
  | some (JVal.jstr s) => parseInt s
  | _ => none

/-- Rational value carried by a JSON field when used as a float cell:
an integer or finite-decimal number directly, or a string that `float()`
accepts; an absent field has no value (`float("")` raises). -/
def ratValOf : Option JVal → Option ℚ
  | some (JVal.jint n) => some (n : ℚ)
  | some (JVal.jnum q) => if IsFiniteDecimal q then some q else none
  | some (JVal.jstr s) => parseFloat s
  | none => none

/-- The sample a payload entry denotes, when the entry is valid: the entry's
integer index, its verbatim DateTime text, and its three rational values. -/
def decodedEntry (e : JEntry) : Option Sample :=
  match intValOf e.index, ratValOf e.latitude, ratValOf e.longitude,
        ratValOf e.inclination with
  | some i, some la, some lo, some inc =>
    some { index := i, datetime := printJVal e.dateTime,
           latitude := la, longitude := lo, inclination := inc }
  | _, _, _, _ => none
/-! ### Helper lemmas: decimal numerals -/

theorem charDigitVal_digitChar {d : ℕ} (h : d < 10) : charDigitVal (digitChar d) = d := by
  interval_cases d <;> decide

theorem natDigitsAux_eq : ∀ (fuel n : ℕ), n ≤ fuel → natDigitsAux fuel n = Nat.digits 10 n := by
  intro fuel
  induction fuel with
  | zero => intro n h; interval_cases n; simp [natDigitsAux]
  | succ f ih =>
    intro n h
    match n with
    | 0 => simp [natDigitsAux]
    | n + 1 =>
      show ((n + 1) % 10) :: natDigitsAux f ((n + 1) / 10) = Nat.digits 10 (n + 1)
      rw [Nat.digits_def' (by norm_num : (1:ℕ) < 10) (Nat.succ_pos n), ih _ (by omega)]

theorem natDigitsLE_eq (n : ℕ) : natDigitsLE n = Nat.digits 10 n :=
  natDigitsAux_eq n n le_rfl

theorem natChars_eq (n : ℕ) :
    natChars n = if n = 0 then ['0'] else ((Nat.digits 10 n).reverse.map digitChar) := by
  unfold natChars
  rw [natDigitsLE_eq]

theorem padDigits_eq (e r : ℕ) :
    padDigits e r = List.replicate (e - ((Nat.digits 10 r).reverse.map digitChar).length) '0' ++
      ((Nat.digits 10 r).reverse.map digitChar) := by
  unfold padDigits
  rw [natDigitsLE_eq]

theorem digitChar_spec {d : ℕ} (h : d < 10) :
    (digitChar d).isDigit = true ∧ ((digitChar d) == 'e' || (digitChar d) == 'E') = false := by
  interval_cases d <;> decide

theorem foldr_digits_eq_ofDigits (L : List ℕ) :
    List.foldr (fun d a => 10 * a + d) 0 L = Nat.ofDigits 10 L := by
  induction L with
  | nil => simp [Nat.ofDigits]
  | cons d t ih => simp [Nat.ofDigits_cons, ih]; ring

theorem digitsVal_rev_map (L : List ℕ) (h : ∀ d ∈ L, d < 10) :
    digitsVal (L.reverse.map digitChar) = Nat.ofDigits 10 L := by
  rw [← foldr_digits_eq_ofDigits]
  unfold digitsVal
  rw [show List.map digitChar L.reverse = (List.map digitChar L).reverse from
    (List.map_reverse _ _), List.foldl_reverse]
  induction L with
  | nil => simp
  | cons d t ih =>
    simp only [List.map_cons, List.foldr_cons]
    rw [ih (fun x hx => h x (List.mem_cons_of_mem _ hx)),
      charDigitVal_digitChar (h d (List.mem_cons_self _ _))]

theorem digitsVal_natChars (n : ℕ) : digitsVal (natChars n) = n := by
  rw [natChars_eq]
  by_cases h : n = 0
  · subst h; decide
  · rw [if_neg h, digitsVal_rev_map _ (fun d hd => Nat.digits_lt_base (by norm_num) hd),
      Nat.ofDigits_digits]

theorem natChars_ne_nil (n : ℕ) : natChars n ≠ [] := by
  rw [natChars_eq]
  by_cases h : n = 0
  · simp [h]
  · simp [h, Nat.digits_ne_nil_iff_ne_zero.mpr h]

theorem natChars_spec (n : ℕ) : ∀ c ∈ natChars n,
    c.isDigit = true ∧ (c == 'e' || c == 'E') = false := by
  intro c hc
  rw [natChars_eq] at hc
  by_cases h : n = 0
  · rw [if_pos h] at hc
    simp at hc
    subst hc; decide
  · rw [if_neg h] at hc
    simp only [List.mem_map, List.mem_reverse] at hc
    obtain ⟨d, hd, rfl⟩ := hc
    exact digitChar_spec (Nat.digits_lt_base (by norm_num) hd)

theorem parseNatDigits_natChars (n : ℕ) : parseNatDigits (natChars n) = some n := by
  unfold parseNatDigits
  rw [if_neg (by simpa [List.isEmpty_iff] using natChars_ne_nil n),
    if_pos (by rw [List.all_eq_true]; exact fun c hc => (natChars_spec n c hc).1),
    digitsVal_natChars]

theorem intChars_neg {i : ℤ} (h : i < 0) : intChars i = '-' :: natChars i.natAbs := by
  unfold intChars; rw [if_pos h]

theorem intChars_nonneg {i : ℤ} (h : ¬ i < 0) : intChars i = natChars i.natAbs := by
  unfold intChars; rw [if_neg h]

theorem parseIntChars_not_sign {l : List Char} (hne : l ≠ [])
    (hd : ∀ c ∈ l, c.isDigit = true) :
    parseIntChars l = (parseNatDigits l).map (fun n => (n : ℤ)) := by
  match l, hne with
  | c :: t, _ =>
    have hc : c.isDigit = true := hd c (List.mem_cons_self _ _)
    have h1 : c ≠ '-' := by rintro rfl; simp at hc
    have h2 : c ≠ '+' := by rintro rfl; simp at hc
    unfold parseIntChars
    split
    · next heq => rw [List.cons.injEq] at heq; exact absurd heq.1 h1
    · next heq => rw [List.cons.injEq] at heq; exact absurd heq.1 h2
    · rfl

theorem parseIntChars_intChars (i : ℤ) : parseIntChars (intChars i) = some i := by
  by_cases h : i < 0
  · rw [intChars_neg h]
    show (parseNatDigits (natChars i.natAbs)).map (fun n => -(n : ℤ)) = some i
    rw [parseNatDigits_natChars]
    simp only [Option.map_some, Option.map_some', Option.some_bind, Option.bind_eq_bind,
      Option.some.injEq, pure]
    omega
  · rw [intChars_nonneg h,
      parseIntChars_not_sign (natChars_ne_nil _) (fun c hc => (natChars_spec _ c hc).1),
      parseNatDigits_natChars]
    simp only [Option.map_some, Option.map_some', Option.some_bind, Option.bind_eq_bind,
      Option.some.injEq, pure]
    omega

/-! ### Helper lemmas: decimal printing and float parsing -/

theorem decExpAux_mod {den : ℕ} : ∀ {fuel i e : ℕ},
    decExpAux den i fuel = some e → 10 ^ e % den = 0 := by
  intro fuel
  induction fuel with
  | zero => intro i e h; simp [decExpAux] at h
  | succ f ih =>
    intro i e h
    unfold decExpAux at h
    split at h
    · cases h; assumption
    · exact ih h

theorem decExp_dvd {den e : ℕ} (h : decExp den = some e) : den ∣ 10 ^ e :=
  Nat.dvd_of_mod_eq_zero (decExpAux_mod h)

theorem takeWhile_dropWhile_middle (p : Char → Bool) (c : Char) :
    ∀ (l1 l2 : List Char), (∀ x ∈ l1, p x = true) → p c = false →
    (l1 ++ c :: l2).takeWhile p = l1 ∧ (l1 ++ c :: l2).dropWhile p = c :: l2 := by
  intro l1 l2 h1 hc
  induction l1 with
  | nil => simp [List.takeWhile, List.dropWhile, hc]
  | cons a t ih =>
    have ha : p a = true := h1 a (List.mem_cons_self _ _)
    have iht := ih (fun x hx => h1 x (List.mem_cons_of_mem _ hx))
    simp only [List.cons_append, List.takeWhile_cons, List.dropWhile_cons, ha,
      if_true, List.cons.injEq, true_and]
    exact iht

theorem takeWhile_dropWhile_all (p : Char → Bool) :
    ∀ (l : List Char), (∀ x ∈ l, p x = true) →
    l.takeWhile p = l ∧ l.dropWhile p = [] := by
  intro l h
  constructor
  · exact List.takeWhile_eq_self_iff.mpr h
  · exact List.dropWhile_eq_nil_iff.mpr h

theorem splitAtExpChar_no_exp : ∀ (l : List Char),
    (∀ c ∈ l, (c == 'e' || c == 'E') = false) → splitAtExpChar l = (l, none) := by
  intro l h
  induction l with
  | nil => rfl
  | cons c t ih =>
    unfold splitAtExpChar
    rw [if_neg (by rw [h c (List.mem_cons_self _ _)]; exact Bool.false_ne_true),
      ih (fun x hx => h x (List.mem_cons_of_mem _ hx))]

theorem digits_length_le {r e : ℕ} (h : r < 10 ^ e) : (Nat.digits 10 r).length ≤ e := by
  by_cases hr : r = 0
  · simp [hr]
  · by_contra hlen
    push_neg at hlen
    have h1 : 10 ^ (e + 1) ≤ 10 ^ (Nat.digits 10 r).length :=
      Nat.pow_le_pow_right (by norm_num) hlen
    have h2 : 10 ^ (Nat.digits 10 r).length ≤ 10 * r :=
      Nat.base_pow_length_digits_le 10 r (by norm_num) hr
    have : 10 ^ (e + 1) ≤ 10 * r := le_trans h1 h2
    rw [pow_succ, mul_comm] at this
    omega

theorem padDigits_length {e r : ℕ} (h : r < 10 ^ e) : (padDigits e r).length = e := by
  rw [padDigits_eq]
  have := digits_length_le h
  simp only [List.length_append, List.length_replicate, List.length_map,
    List.length_reverse]
  simp only [List.length_map, List.length_reverse] at *
  omega

theorem digitsVal_zeros_append : ∀ (k : ℕ) (L : List Char),
    digitsVal (List.replicate k '0' ++ L) = digitsVal L := by
  intro k L
  induction k with
  | zero => rfl
  | succ n ih =>
    show digitsVal ('0' :: (List.replicate n '0' ++ L)) = digitsVal L
    unfold digitsVal at *
    simpa using ih

theorem digitsVal_padDigits {e r : ℕ} (h : r < 10 ^ e) : digitsVal (padDigits e r) = r := by
  rw [padDigits_eq]
  rw [digitsVal_zeros_append]
  by_cases hr : r = 0
  · subst hr; rw [Nat.digits_zero]; rfl
  · rw [digitsVal_rev_map _ (fun d hd => Nat.digits_lt_base (by norm_num) hd),
      Nat.ofDigits_digits]

theorem padDigits_spec (e r : ℕ) : ∀ c ∈ padDigits e r,
    c.isDigit = true ∧ (c == 'e' || c == 'E') = false := by
  intro c hc
  rw [padDigits_eq] at hc
  rw [List.mem_append] at hc
  rcases hc with hc | hc
  · rw [List.eq_of_mem_replicate hc]; decide
  · simp only [List.mem_map, List.mem_reverse] at hc
    obtain ⟨d, hd, rfl⟩ := hc
    exact digitChar_spec (Nat.digits_lt_base (by norm_num) hd)

theorem stripSign_not_sign {c : Char} {t : List Char} (h1 : c ≠ '-') (h2 : c ≠ '+') :
    stripSign (c :: t) = (1, c :: t) := by
  unfold stripSign
  split
  · next heq => rw [List.cons.injEq] at heq; exact absurd heq.1 h1
  · next heq => rw [List.cons.injEq] at heq; exact absurd heq.1 h2
  · rfl

theorem parseMantissa_fixed {A B e : ℕ} (hB : B < 10 ^ e) :
    parseMantissa (natChars A ++ '.' :: padDigits e B) =
      some ((A : ℚ) + (B : ℚ) / 10 ^ e) := by
  have h1 := takeWhile_dropWhile_middle Char.isDigit '.' (natChars A) (padDigits e B)
    (fun c hc => (natChars_spec A c hc).1) (by decide)
  have hfp : (padDigits e B).all Char.isDigit = true := by
    rw [List.all_eq_true]; exact fun c hc => (padDigits_spec e B c hc).1
  have hip : (natChars A).isEmpty = false := by
    simpa [List.isEmpty_iff] using natChars_ne_nil A
  unfold parseMantissa
  simp only [h1.1, h1.2, hfp, hip, Bool.false_and, Bool.not_false, Bool.and_true,
    Bool.true_and, if_true]
  rw [digitsVal_natChars, digitsVal_padDigits hB, padDigits_length hB]

theorem parseFloatChars_signed {c : Char} {t : List Char} {v : ℚ}
    (hc : c.isDigit = true)
    (hexp : ∀ x ∈ c :: t, (x == 'e' || x == 'E') = false)
    (hm : parseMantissa (c :: t) = some v) :
    parseFloatChars (c :: t) = some v ∧ parseFloatChars ('-' :: c :: t) = some (-v) := by
  have h1 : c ≠ '-' := by rintro rfl; simp at hc
  have h2 : c ≠ '+' := by rintro rfl; simp at hc
  have hsplit : splitAtExpChar (c :: t) = (c :: t, none) := splitAtExpChar_no_exp _ hexp
  constructor
  · unfold parseFloatChars
    rw [stripSign_not_sign h1 h2]
    simp only [hsplit, hm]
    rw [one_mul]
  · unfold parseFloatChars
    show (match parseMantissa (splitAtExpChar (stripSign ('-' :: c :: t)).2).1,
        (splitAtExpChar (stripSign ('-' :: c :: t)).2).2 with
      | some m, none => some ((stripSign ('-' :: c :: t)).1 * m)
      | some m, some el =>
        (parseIntChars el).map (fun k => (stripSign ('-' :: c :: t)).1 * m * (10 : ℚ) ^ k)
      | none, _ => none) = some (-v)
    rw [show stripSign ('-' :: c :: t) = (-1, c :: t) from rfl]
    simp only [hsplit, hm]
    rw [neg_one_mul]

theorem natChars_head (A : ℕ) : ∃ c t, natChars A = c :: t ∧ c.isDigit = true := by
  obtain ⟨c, t, h⟩ := List.exists_cons_of_ne_nil (natChars_ne_nil A)
  exact ⟨c, t, h, (natChars_spec A c (by rw [h]; exact List.mem_cons_self _ _)).1⟩

theorem cast_m_eq {q : ℚ} {e : ℕ} (hdvd : q.den ∣ 10 ^ e) :
    ((q.num.natAbs * (10 ^ e / q.den) : ℕ) : ℚ) = |q| * 10 ^ e := by
  have hden : (0 : ℚ) < (q.den : ℚ) := by
    exact_mod_cast q.pos
  have h2 : ((10 ^ e / q.den : ℕ) : ℚ) = (10 : ℚ) ^ e / (q.den : ℚ) := by
    rw [Nat.cast_div hdvd (ne_of_gt hden)]
    push_cast
    ring
  have hnd := Rat.num_div_den q
  rw [div_eq_iff (ne_of_gt hden)] at hnd
  have h3 : ((q.num.natAbs : ℚ)) = |q| * (q.den : ℚ) := by
    rw [Int.cast_natAbs, Int.cast_abs, hnd, abs_mul, abs_of_pos hden]
  push_cast [h2, h3]
  field_simp
  ring

theorem floatChars_shape {q : ℚ} (h : IsFiniteDecimal q) :
    ∃ A E B, 0 < E ∧ B < 10 ^ E ∧
      floatChars q = (if q < 0 then ['-'] else []) ++ natChars A ++ '.' :: padDigits E B ∧
      (A : ℚ) + (B : ℚ) / 10 ^ E = |q| := by
  obtain ⟨e, he⟩ := Option.isSome_iff_exists.mp h
  have hdvd : q.den ∣ 10 ^ e := decExp_dvd he
  have hmval := cast_m_eq hdvd
  by_cases he0 : e = 0
  · subst he0
    refine ⟨q.num.natAbs * (10 ^ 0 / q.den), 1, 0, Nat.one_pos, by norm_num, ?_, ?_⟩
    · simp only [floatChars, he]
      rw [if_pos True.intro, show ('.' :: padDigits 1 0 : List Char) = ['.', '0'] by decide]
    · rw [hmval]
      push_cast
      simp
  · refine ⟨q.num.natAbs * (10 ^ e / q.den) / 10 ^ e,
      e, q.num.natAbs * (10 ^ e / q.den) % 10 ^ e, Nat.pos_of_ne_zero he0,
      Nat.mod_lt _ (by positivity), ?_, ?_⟩
    · simp only [floatChars, he]
      rw [if_neg he0]
    · set m : ℕ := q.num.natAbs * (10 ^ e / q.den) with hm
      have hdm : 10 ^ e * (m / 10 ^ e) + m % 10 ^ e = m := Nat.div_add_mod m (10 ^ e)
      have hcast : (10 : ℚ) ^ e * ((m / 10 ^ e : ℕ) : ℚ) + ((m % 10 ^ e : ℕ) : ℚ) = (m : ℚ) := by
        exact_mod_cast congrArg (fun n : ℕ => (n : ℚ)) hdm
      have hez : (10 : ℚ) ^ e ≠ 0 := by positivity
      rw [hmval] at hcast
      field_simp
      linarith [hcast]

theorem parseFloatChars_floatChars {q : ℚ} (h : IsFiniteDecimal q) :
    parseFloatChars (floatChars q) = some q := by
  obtain ⟨A, E, B, hE, hB, hfc, hval⟩ := floatChars_shape h
  obtain ⟨c, t, hct, hcd⟩ := natChars_head A
  have hexp : ∀ x ∈ c :: (t ++ '.' :: padDigits E B), (x == 'e' || x == 'E') = false := by
    intro x hx
    rw [← List.cons_append, ← hct] at hx
    rw [List.mem_append] at hx
    rcases hx with hx | hx
    · exact (natChars_spec A x hx).2
    · rcases List.mem_cons.mp hx with rfl | hx
      · decide
      · exact (padDigits_spec E B x hx).2
  have hm : parseMantissa (c :: (t ++ '.' :: padDigits E B)) = some ((A : ℚ) + (B : ℚ) / 10 ^ E) := by
    rw [← List.cons_append, ← hct]
    exact parseMantissa_fixed hB
  have hsg := parseFloatChars_signed hcd hexp hm
  by_cases hq : q < 0
  · rw [hfc, if_pos hq, hct]
    simp only [List.cons_append, List.nil_append]
    rw [hsg.2, hval, abs_of_neg hq]
    ring_nf
  · rw [hfc, if_neg hq, hct]
    simp only [List.cons_append, List.nil_append]
    rw [hsg.1, hval, abs_of_nonneg (not_lt.mp hq)]

theorem parseMantissa_natChars (n : ℕ) : parseMantissa (natChars n) = some ((n : ℚ)) := by
  have h := takeWhile_dropWhile_all Char.isDigit (natChars n)
    (fun c hc => (natChars_spec n c hc).1)
  unfold parseMantissa
  simp only [h.1, h.2]
  rw [if_neg (by simpa [List.isEmpty_iff] using natChars_ne_nil n), digitsVal_natChars]

theorem parseFloatChars_intChars (i : ℤ) : parseFloatChars (intChars i) = some ((i : ℚ)) := by
  obtain ⟨c, t, hct, hcd⟩ := natChars_head i.natAbs
  have hexp : ∀ x ∈ c :: t, (x == 'e' || x == 'E') = false := by
    intro x hx
    rw [← hct] at hx
    exact (natChars_spec _ x hx).2
  have hm : parseMantissa (c :: t) = some ((i.natAbs : ℚ)) := by
    rw [← hct]
    exact parseMantissa_natChars _
  have hsg := parseFloatChars_signed hcd hexp hm
  by_cases h : i < 0
  · rw [intChars_neg h, hct, hsg.2]
    have hi : ((i : ℚ)) < 0 := by exact_mod_cast h
    rw [Int.cast_natAbs, Int.cast_abs, abs_of_neg hi, neg_neg]
  · rw [intChars_nonneg h, hct, hsg.1]
    have hi : (0 : ℚ) ≤ (i : ℚ) := by exact_mod_cast not_lt.mp h
    rw [Int.cast_natAbs, Int.cast_abs, abs_of_nonneg hi]

theorem parseNatDigits_none_of_mem {c : Char} {l : List Char}
    (hc : c ∈ l) (hd : c.isDigit = false) : parseNatDigits l = none := by
  unfold parseNatDigits
  rw [if_neg (by simp [List.isEmpty_iff]; rintro rfl; simp at hc)]
  rw [if_neg (fun hall => by rw [List.all_eq_true] at hall; rw [hall c hc] at hd; simp at hd)]

theorem parseIntChars_default {c : Char} {t : List Char} (h1 : c ≠ '-') (h2 : c ≠ '+') :
    parseIntChars (c :: t) = (parseNatDigits (c :: t)).map (fun n => (n : ℤ)) := by
  unfold parseIntChars
  split
  · next heq => rw [List.cons.injEq] at heq; exact absurd heq.1 h1
  · next heq => rw [List.cons.injEq] at heq; exact absurd heq.1 h2
  · rfl

theorem parseIntChars_floatChars (q : ℚ) : parseIntChars (floatChars q) = none := by
  by_cases h : IsFiniteDecimal q
  · obtain ⟨A, E, B, hE, hB, hfc, _⟩ := floatChars_shape h
    rw [hfc]
    have hdot : ('.' : Char) ∈ natChars A ++ '.' :: padDigits E B :=
      List.mem_append_right _ (List.mem_cons_self _ _)
    by_cases hq : q < 0
    · rw [if_pos hq, List.singleton_append]
      show (parseNatDigits (natChars A ++ '.' :: padDigits E B)).map (fun n => -(n : ℤ)) = none
      rw [parseNatDigits_none_of_mem hdot (by decide)]
      rfl
    · rw [if_neg hq, List.nil_append]
      obtain ⟨c, t, hct, hcd⟩ := natChars_head A
      have hlist : natChars A ++ '.' :: padDigits E B = c :: (t ++ '.' :: padDigits E B) := by
        rw [hct, List.cons_append]
      rw [hlist]
      rw [parseIntChars_default (by rintro rfl; simp at hcd) (by rintro rfl; simp at hcd)]
      rw [parseNatDigits_none_of_mem (c := '.') (by rw [← hlist]; exact hdot) (by decide)]
      rfl
  · have hnone : decExp q.den = none := by
      unfold IsFiniteDecimal at h
      simpa [Option.not_isSome_iff_eq_none] using h
    unfold floatChars
    rw [hnone]
    show parseIntChars ['?'] = none
    rfl

/-! ### Cell-level codec correctness -/

theorem parseInt_printJVal (v : Option JVal) : parseInt (printJVal v) = intValOf v := by
  match v with
  | none => rfl
  | some (JVal.jint n) =>
    show parseIntChars ((intChars n).asString).toList = some n
    rw [List.toList_asString]
    exact parseIntChars_intChars n
  | some (JVal.jnum q) =>
    show parseIntChars ((floatChars q).asString).toList = none
    rw [List.toList_asString]
    exact parseIntChars_floatChars q
  | some (JVal.jstr s) => rfl

theorem parseFloat_printJVal (v : Option JVal) : parseFloat (printJVal v) = ratValOf v := by
  match v with
  | none => rfl
  | some (JVal.jint n) =>
    show parseFloatChars ((intChars n).asString).toList = some ((n : ℚ))
    rw [List.toList_asString]
    exact parseFloatChars_intChars n
  | some (JVal.jnum q) =>
    show parseFloatChars ((floatChars q).asString).toList = ratValOf (some (JVal.jnum q))
    rw [List.toList_asString]
    by_cases h : IsFiniteDecimal q
    · rw [parseFloatChars_floatChars h]
      show _ = if IsFiniteDecimal q then some q else none
      rw [if_pos h]
    · have hnone : decExp q.den = none := by
        unfold IsFiniteDecimal at h
        simpa [Option.not_isSome_iff_eq_none] using h
      show parseFloatChars (floatChars q) = if IsFiniteDecimal q then some q else none
      unfold floatChars
      rw [hnone, if_neg h]
      rfl
  | some (JVal.jstr s) => rfl

theorem parseRow_encodeEntry (e : JEntry) : parseRow (encodeEntry e) = decodedEntry e := by
  unfold parseRow encodeEntry decodedEntry
  simp only [parseInt_printJVal, parseFloat_printJVal]

/-! ### Characterization of the decoding loop -/

theorem readRowsAux_spec : ∀ (rows : List Row) (d : List Sample) (w : ℕ),
    readRowsAux rows (d, w) =
      (d ++ rows.filterMap parseRow,
       w + (rows.filter (fun r => (parseRow r).isNone)).length) := by
  intro rows
  induction rows with
  | nil => intro d w; simp [readRowsAux]
  | cons r rs ih =>
    intro d w
    show (match parseRow r with
      | some s => readRowsAux rs (d ++ [s], w)
      | none => readRowsAux rs (d, w + 1)) = _
    cases hp : parseRow r with
    | some s =>
      simp only [ih, List.filterMap_cons, List.filter_cons, hp, Option.isNone_some,
        Bool.false_eq_true, if_false, List.append_assoc, List.singleton_append]
    | none =>
      simp only [ih, List.filterMap_cons, List.filter_cons, hp, Option.isNone_none,
        if_true, List.length_cons, Prod.mk.injEq, true_and]
      omega

theorem read_csv_with_warnings_spec (rows : List Row) :
    read_csv_with_warnings rows =
      (rows.filterMap parseRow,
       (rows.filter (fun r => (parseRow r).isNone)).length) := by
  unfold read_csv_with_warnings
  rw [readRowsAux_spec]
  simp

theorem read_csv_file_eq (rows : List Row) :
    read_csv_file rows =
      if rows.filterMap parseRow = [] then none else some (rows.filterMap parseRow) := by
  unfold read_csv_file
  rw [read_csv_with_warnings_spec]

theorem decode_encode_filterMap (p : Payload) :
    (convert_json_to_csv p).filterMap parseRow = p.data.filterMap decodedEntry := by
  unfold convert_json_to_csv
  rw [List.filterMap_map]
  congr 1
  funext e
  exact parseRow_encodeEntry e

/-! ### Characterization of the coordinate grouping -/

theorem addToGroups_find (gs : List ((ℚ × ℚ) × List Sample)) (k : ℚ × ℚ) (s : Sample) :
    ∀ k' : ℚ × ℚ,
    (addToGroups gs k s).find? (fun g => decide (g.1 = k')) =
      if k' = k then
        some (k, ((((gs.find? (fun g => decide (g.1 = k))).map Prod.snd).getD []) ++ [s]))
      else gs.find? (fun g => decide (g.1 = k')) := by
  induction gs with
  | nil =>
    intro k'
    show List.find? (fun g => decide (g.1 = k')) [(k, [s])] = _
    by_cases h : k' = k
    · rw [List.find?_cons_of_pos _ (by simp [h.symm]), if_pos h]
      simp
    · rw [List.find?_cons_of_neg _ (by simp [Ne.symm h]), if_neg h]
  | cons g t ih =>
    intro k'
    by_cases hg : g.1 = k
    · unfold addToGroups
      rw [if_pos hg]
      by_cases h : k' = k
      · subst h
        rw [List.find?_cons_of_pos _ (by simp [hg]), if_pos rfl,
          List.find?_cons_of_pos _ (by simp [hg])]
        simp [hg]
      · have hne : ¬ ((g.1, g.2 ++ [s]).1 = k') := by
          simp only [hg]
          exact fun hh => h hh.symm
        rw [List.find?_cons_of_neg _ (by simpa using hne), if_neg h,
          List.find?_cons_of_neg _ (by simp only [hg]; simpa [hg] using hne)]
    · unfold addToGroups
      rw [if_neg hg]
      by_cases hgk : g.1 = k'
      · have hk : k' ≠ k := fun hh => hg (hgk.trans hh)
        rw [List.find?_cons_of_pos _ (by simp [hgk]), if_neg hk,
          List.find?_cons_of_pos _ (by simp [hgk])]
      · rw [List.find?_cons_of_neg _ (by simp [hgk]), ih k']
        by_cases h : k' = k
        · subst h
          rw [if_pos rfl, if_pos rfl, List.find?_cons_of_neg _ (by simp [hg])]
        · rw [if_neg h, if_neg h, List.find?_cons_of_neg _ (by simp [hgk])]

theorem foldl_groups_find : ∀ (data : List Sample) (gs : List ((ℚ × ℚ) × List Sample)) (k : ℚ × ℚ),
    (data.foldl (fun gs s => addToGroups gs (sampleKey s) s) gs).find?
        (fun g => decide (g.1 = k)) =
      if data.filter (fun s => decide (sampleKey s = k)) = [] then
        gs.find? (fun g => decide (g.1 = k))
      else
        some (k, (((gs.find? (fun g => decide (g.1 = k))).map Prod.snd).getD []) ++
          data.filter (fun s => decide (sampleKey s = k))) := by
  intro data
  induction data with
  | nil => intro gs k; simp
  | cons s ds ih =>
    intro gs k
    rw [List.foldl_cons, ih]
    by_cases hk : sampleKey s = k
    · subst hk
      have hf : (s :: ds).filter (fun x => decide (sampleKey x = sampleKey s)) =
          s :: ds.filter (fun x => decide (sampleKey x = sampleKey s)) := by
        rw [List.filter_cons, if_pos (by simp)]
      rw [hf, addToGroups_find gs (sampleKey s) s (sampleKey s), if_pos rfl,
        if_neg (List.cons_ne_nil _ _)]
      by_cases hds : ds.filter (fun x => decide (sampleKey x = sampleKey s)) = []
      · rw [if_pos hds, hds]
      · rw [if_neg hds]
        simp [List.append_assoc]
    · have hne : ¬ k = sampleKey s := fun hh => hk hh.symm
      have hf : (s :: ds).filter (fun x => decide (sampleKey x = k)) =
          ds.filter (fun x => decide (sampleKey x = k)) := by
        rw [List.filter_cons, if_neg (by simpa using hk)]
      rw [hf, addToGroups_find gs (sampleKey s) s k, if_neg hne]

theorem buildGroups_find (data : List Sample) (k : ℚ × ℚ) :
    (buildGroups data).find? (fun g => decide (g.1 = k)) =
      if data.filter (fun s => decide (sampleKey s = k)) = [] then none
      else some (k, data.filter (fun s => decide (sampleKey s = k))) := by
  unfold buildGroups
  rw [foldl_groups_find]
  by_cases h : data.filter (fun s => decide (sampleKey s = k)) = []
  · rw [if_pos h, if_pos h]
    rfl
  · rw [if_neg h, if_neg h]
    rfl

theorem addToGroups_keys (gs : List ((ℚ × ℚ) × List Sample)) (k : ℚ × ℚ) (s : Sample) :
    (addToGroups gs k s).map Prod.fst =
      if k ∈ gs.map Prod.fst then gs.map Prod.fst else gs.map Prod.fst ++ [k] := by
  induction gs with
  | nil => simp [addToGroups]
  | cons g t ih =>
    by_cases hg : g.1 = k
    · unfold addToGroups
      rw [if_pos hg]
      simp [hg]
    · unfold addToGroups
      rw [if_neg hg]
      simp only [List.map_cons, ih]
      have : (k ∈ g.1 :: t.map Prod.fst) ↔ (k ∈ t.map Prod.fst) := by
        rw [List.mem_cons]
        constructor
        · rintro (rfl | hh)
          · exact absurd rfl hg
          · exact hh
        · exact Or.inr
      by_cases hm : k ∈ t.map Prod.fst
      · rw [if_pos hm, if_pos (this.mpr hm)]
      · rw [if_neg hm, if_neg (fun hh => hm (this.mp hh))]
        simp

theorem addToGroups_keys_nodup {gs : List ((ℚ × ℚ) × List Sample)} (k : ℚ × ℚ) (s : Sample)
    (h : (gs.map Prod.fst).Nodup) : ((addToGroups gs k s).map Prod.fst).Nodup := by
  rw [addToGroups_keys]
  by_cases hm : k ∈ gs.map Prod.fst
  · rw [if_pos hm]; exact h
  · rw [if_neg hm]
    refine List.Nodup.append h (List.nodup_singleton k) ?_
    rw [List.disjoint_left]
    intro a ha hak
    rw [List.mem_singleton] at hak
    subst hak
    exact hm ha

theorem buildGroups_keys_nodup (data : List Sample) :
    ((buildGroups data).map Prod.fst).Nodup := by
  unfold buildGroups
  suffices h : ∀ (l : List Sample) (gs : List ((ℚ × ℚ) × List Sample)),
      (gs.map Prod.fst).Nodup →
      ((l.foldl (fun gs s => addToGroups gs (sampleKey s) s) gs).map Prod.fst).Nodup by
    exact h data [] (by simp)
  intro l
  induction l with
  | nil => intro gs hgs; exact hgs
  | cons s ds ih =>
    intro gs hgs
    exact ih _ (addToGroups_keys_nodup _ _ hgs)

theorem find_of_mem_nodup {gs : List ((ℚ × ℚ) × List Sample)} {k : ℚ × ℚ} {e : List Sample}
    (hnd : (gs.map Prod.fst).Nodup) (hm : (k, e) ∈ gs) :
    gs.find? (fun g => decide (g.1 = k)) = some (k, e) := by
  induction gs with
  | nil => simp at hm
  | cons g t ih =>
    rcases List.mem_cons.mp hm with rfl | hm'
    · exact List.find?_cons_of_pos _ (by simp)
    · have hk : k ∈ t.map Prod.fst := by
        exact List.mem_map.mpr ⟨(k, e), hm', rfl⟩
      have hg : ¬ (g.1 = k) := by
        rintro rfl
        exact (List.nodup_cons.mp (by simpa using hnd)).1 hk
      rw [List.find?_cons_of_neg _ (by simpa using hg)]
      exact ih (List.nodup_cons.mp (by simpa using hnd)).2 hm'

theorem mem_buildGroups_eq_filter {data : List Sample} {k : ℚ × ℚ} {e : List Sample}
    (hm : (k, e) ∈ buildGroups data) :
    e = data.filter (fun s => decide (sampleKey s = k)) ∧ e ≠ [] := by
  have hf := find_of_mem_nodup (buildGroups_keys_nodup data) hm
  rw [buildGroups_find] at hf
  by_cases h : data.filter (fun s => decide (sampleKey s = k)) = []
  · rw [if_pos h] at hf
    cases hf
  · rw [if_neg h] at hf
    have he : data.filter (fun s => decide (sampleKey s = k)) = e :=
      congrArg Prod.snd (Option.some.inj hf)
    exact ⟨he.symm, he ▸ h⟩

/-! ### Distinctness of the spread-mode angles -/

theorem cos_sin_pair_injective {n i j : ℕ} (hi : i < n) (hj : j < n) (hij : i ≠ j) :
    ¬(Real.cos (2 * Real.pi * i / n) = Real.cos (2 * Real.pi * j / n) ∧
      Real.sin (2 * Real.pi * i / n) = Real.sin (2 * Real.pi * j / n)) := by
  rintro ⟨hc, hs⟩
  have hang := Real.Angle.cos_sin_inj hc hs
  rw [Real.Angle.angle_eq_iff_two_pi_dvd_sub] at hang
  obtain ⟨k, hk⟩ := hang
  have hn0 : (n : ℝ) ≠ 0 := by
    have : 0 < n := lt_of_le_of_lt (Nat.zero_le i) hi
    exact_mod_cast this.ne'
  have hk2 : 2 * Real.pi * ((i : ℝ) - (j : ℝ)) / (n : ℝ) = 2 * Real.pi * (k : ℝ) := by
    rw [← hk]
    ring
  have hk3 : 2 * Real.pi * ((i : ℝ) - (j : ℝ)) = 2 * Real.pi * ((k : ℝ) * (n : ℝ)) := by
    have := congrArg (fun x => x * (n : ℝ)) hk2
    simp only at this
    rw [div_mul_cancel₀ _ hn0] at this
    rw [this]
    ring
  have htp : (2 * Real.pi) ≠ 0 := by
    have := Real.pi_ne_zero
    positivity
  have hcancel : ((i : ℝ) - (j : ℝ)) = (k : ℝ) * (n : ℝ) := mul_left_cancel₀ htp hk3
  have hz : (i : ℤ) - (j : ℤ) = k * (n : ℤ) := by exact_mod_cast hcancel
  have hdvd : ((n : ℤ)) ∣ (i : ℤ) - (j : ℤ) := ⟨k, by rw [hz]; ring⟩
  have habs : |(i : ℤ) - (j : ℤ)| < (n : ℤ) := by
    rw [abs_lt]
    omega
  have := Int.eq_zero_of_abs_lt_dvd hdvd habs
  have : (i : ℤ) = (j : ℤ) := by omega
  exact hij (by exact_mod_cast this)

/-! ### Helper lemmas: output-name disambiguation -/

theorem toList_append (a b : String) : (a ++ b).toList = a.toList ++ b.toList := by
  simp

theorem splitextStem_append_csv (x : String) : splitextStem (x ++ ".csv") = x := by
  unfold splitextStem
  have h : (x ++ ".csv").toList = x.toList ++ ['.', 'c', 's', 'v'] := by
    rw [toList_append]
    rfl
  rw [h, List.reverse_append]
  have h2 : (['.', 'c', 's', 'v'] : List Char).reverse = ['v', 's', 'c', '.'] := by decide
  rw [h2]
  show (match stemRevAux ('v' :: 's' :: 'c' :: '.' :: x.toList.reverse) with
    | none => x ++ ".csv"
    | some r => r.reverse.asString) = x
  have h3 : stemRevAux ('v' :: 's' :: 'c' :: '.' :: x.toList.reverse) =
      some x.toList.reverse := by
    simp [stemRevAux]
  rw [h3]
  show x.toList.reverse.reverse.asString = x
  rw [List.reverse_reverse]
  exact String.asString_toList x

theorem pad3_toList (i : ℕ) :
    (pad3 i).toList = List.replicate (3 - (natChars i).length) '0' ++ natChars i := by
  unfold pad3
  rw [List.toList_asString]

theorem pad3_length {i : ℕ} (h : i ≤ 999) : (pad3 i).toList.length = 3 := by
  rw [pad3_toList]
  have hlen : (natChars i).length ≤ 3 := by
    rw [natChars_eq]
    by_cases h0 : i = 0
    · simp [h0]
    · rw [if_neg h0]
      simp only [List.length_map, List.length_reverse]
      exact digits_length_le (by omega)
  have hpos : 1 ≤ (natChars i).length := by
    have := natChars_ne_nil i
    cases hh : natChars i with
    | nil => exact absurd hh this
    | cons a t => simp [hh]
  simp only [List.length_append, List.length_replicate]
  omega

theorem dropLast4_append {stem : String} {l : List Char} (h : l.length = 4) :
    dropLast4 ((stem.toList ++ l).asString) = stem := by
  unfold dropLast4
  rw [List.toList_asString]
  have : (stem.toList ++ l).length - 4 = stem.toList.length := by
    simp [List.length_append, h]
  rw [this, List.take_left]
  exact String.asString_toList stem

theorem dropLast4_stem (stem : String) {i : ℕ} (h : i ≤ 999) :
    dropLast4 (stem ++ "_" ++ pad3 i) = stem := by
  have hl : stem ++ "_" ++ pad3 i = (stem.toList ++ ('_' :: (pad3 i).toList)).asString := by
    rw [← String.asString_toList (stem ++ "_" ++ pad3 i)]
    congr 1
    rw [toList_append, toList_append]
    simp
  rw [hl, dropLast4_append (by rw [List.length_cons, pad3_length h])]

theorem nextCsvNameAux_run (ex : String → Bool) (stem : String) (k : ℕ) (hk : k ≤ 999)
    (hall : ∀ j, j < k → ex (stem ++ "_" ++ pad3 j ++ ".csv") = true)
    (hfree : ex (stem ++ "_" ++ pad3 k ++ ".csv") = false) :
    ∀ d i, i + d = k →
      nextCsvNameAux ex (d + 1) (stem ++ "_" ++ pad3 i ++ ".csv") (i + 1) =
        stem ++ "_" ++ pad3 k ++ ".csv" := by
  intro d
  induction d with
  | zero =>
    intro i hi
    have hik : i = k := by omega
    subst hik
    unfold nextCsvNameAux
    rw [hfree]
    simp
  | succ d ih =>
    intro i hi
    have hik : i < k := by omega
    unfold nextCsvNameAux
    rw [hall i hik]
    simp only [if_true]
    rw [if_neg (Nat.succ_ne_zero i), splitextStem_append_csv,
      dropLast4_stem stem (by omega : i ≤ 999)]
    exact ih (i + 1) (by omega)

theorem nextCsvName_run (ex : String → Bool) (stem : String) (k : ℕ) (hk : k ≤ 999)
    (hbase : ex (stem ++ ".csv") = true)
    (hall : ∀ j, j < k → ex (stem ++ "_" ++ pad3 j ++ ".csv") = true)
    (hfree : ex (stem ++ "_" ++ pad3 k ++ ".csv") = false) :
    nextCsvName ex (k + 2) (stem ++ ".csv") = stem ++ "_" ++ pad3 k ++ ".csv" := by
  unfold nextCsvName
  show nextCsvNameAux ex (k + 1 + 1) (stem ++ ".csv") 0 = _
  unfold nextCsvNameAux
  rw [hbase]
  simp only [if_true]
  rw [splitextStem_append_csv]
  exact nextCsvNameAux_run ex stem k hk hall hfree k 0 (by omega)

/-! ### Supporting lemmas about `create_map` -/

theorem create_map_of_ne_nil (data : List Sample) (mode : Mode) (off : ℝ) (h : data ≠ []) :
    create_map data mode off = some
      { center := ((data.map Sample.latitude).sum / (data.length : ℚ),
                   (data.map Sample.longitude).sum / (data.length : ℚ))
        markers :=
          match mode with
          | Mode.cluster => clusterMarkers data
          | Mode.spread => spreadMarkers off data
        path := data.map (fun s => (s.latitude, s.longitude)) } := by
  unfold create_map
  rw [if_neg h]

theorem marker_color_invariant (data : List Sample) (mode : Mode) (off : ℝ) (mm : MapModel)
    (hmm : create_map data mode off = some mm) :
    ∀ m ∈ mm.markers, m.color = classifyColor m.inclination := by
  intro m hm
  by_cases h : data = []
  · subst h
    unfold create_map at hmm
    simp at hmm
  · rw [create_map_of_ne_nil data mode off h] at hmm
    injection hmm with hmm'
    subst hmm'
    cases mode with
    | cluster =>
      have hm' : m ∈ clusterMarkers data := hm
      obtain ⟨s, _, rfl⟩ := List.mem_map.mp hm'
      rfl
    | spread =>
      have hm' : m ∈ spreadMarkers off data := hm
      unfold spreadMarkers at hm'
      obtain ⟨g, _, hm2⟩ := List.mem_flatMap.mp hm'
      obtain ⟨is, _, rfl⟩ := List.mem_map.mp hm2
      rfl

theorem abs_rat_eval_pos {q : ℚ} (h : 0 < q) : |q| = q := abs_of_pos h

/-- C1: in both cluster and spread modes the marker color is green when
`|inclination| < 0.5`, orange when `|inclination| ≥ 0.5` and
`inclination < -0.5`, and blue otherwise; in particular 0.3 is green, -0.9 is
orange, 0.9 is blue, and exactly -0.5 is blue (the negative branch is
exclusive), so the three branches partition the domain. -/
theorem C1_color_classification :
    (∀ q : ℚ,
      (classifyColor q = Color.green ↔ |q| < 0.5) ∧
      (classifyColor q = Color.orange ↔ 0.5 ≤ |q| ∧ q < -0.5) ∧
      (classifyColor q = Color.blue ↔ 0.5 ≤ |q| ∧ ¬ q < -0.5)) ∧
    classifyColor 0.3 = Color.green ∧
    classifyColor (-0.9) = Color.orange ∧
    classifyColor 0.9 = Color.blue ∧
    classifyColor (-0.5) = Color.blue ∧
    (∀ (data : List Sample) (mode : Mode) (off : ℝ) (mm : MapModel),
      create_map data mode off = some mm →
      ∀ m ∈ mm.markers, m.color = classifyColor m.inclination) := by
  refine ⟨?_, ?_, ?_, ?_, ?_, marker_color_invariant⟩
  · intro q
    unfold classifyColor
    split_ifs with h1 h2
    · exact ⟨⟨fun _ => h1, fun _ => rfl⟩,
        ⟨fun hh => absurd hh (by decide), fun ha => absurd ha.1 (not_le.mpr h1)⟩,
        ⟨fun hh => absurd hh (by decide), fun ha => absurd ha.1 (not_le.mpr h1)⟩⟩
    · exact ⟨⟨fun hh => absurd hh (by decide), fun ha => absurd ha h1⟩,
        ⟨fun _ => ⟨not_lt.mp h1, h2⟩, fun _ => rfl⟩,
        ⟨fun hh => absurd hh (by decide), fun ha => absurd h2 ha.2⟩⟩
    · exact ⟨⟨fun hh => absurd hh (by decide), fun ha => absurd ha h1⟩,
        ⟨fun hh => absurd hh (by decide), fun ha => absurd ha.2 h2⟩,
        ⟨fun _ => ⟨not_lt.mp h1, h2⟩, fun _ => rfl⟩⟩
  · unfold classifyColor
    rw [if_pos (show |(0.3 : ℚ)| < 0.5 by rw [abs_of_pos (by norm_num)]; norm_num)]
  · unfold classifyColor
    rw [if_neg (show ¬ |(-0.9 : ℚ)| < 0.5 by rw [abs_of_neg (by norm_num)]; norm_num),
      if_pos (show (-0.9 : ℚ) < -0.5 by norm_num)]
  · unfold classifyColor
    rw [if_neg (show ¬ |(0.9 : ℚ)| < 0.5 by rw [abs_of_pos (by norm_num)]; norm_num),
      if_neg (show ¬ (0.9 : ℚ) < -0.5 by norm_num)]
  · unfold classifyColor
    rw [if_neg (show ¬ |(-0.5 : ℚ)| < 0.5 by rw [abs_of_neg (by norm_num)]; norm_num),
      if_neg (show ¬ (-0.5 : ℚ) < -0.5 by norm_num)]

/-- Witness for C1 at a concrete one-sample map in cluster mode. -/
theorem C1_color_classification_witness :
    (classifyColor (0.3 : ℚ) = Color.green ↔ |(0.3 : ℚ)| < 0.5) ∧
    (∀ m ∈ clusterMarkers [Sample.mk 0 "t" 1 2 0.3],
      m.color = classifyColor m.inclination) := by
  constructor
  · exact (C1_color_classification.1 (0.3 : ℚ)).1
  · exact C1_color_classification.2.2.2.2.2 [Sample.mk 0 "t" 1 2 0.3]
      Mode.cluster 0 _ (create_map_of_ne_nil _ Mode.cluster 0 (by simp))

/-- C10: the map center handed to the renderer is exactly the pair of
arithmetic means of the samples' latitudes and longitudes, and `create_map`
rejects an empty batch first (so the means are always well defined). -/
theorem C10_center_is_coordinate_mean :
    (∀ (mode : Mode) (off : ℝ), create_map [] mode off = none) ∧
    (∀ (data : List Sample) (mode : Mode) (off : ℝ), data ≠ [] →
      ∃ mm : MapModel, create_map data mode off = some mm ∧
        mm.center = ((data.map Sample.latitude).sum / (data.length : ℚ),
                     (data.map Sample.longitude).sum / (data.length : ℚ))) := by
  constructor
  · intro mode off
    rfl
  · intro data mode off h
    exact ⟨_, create_map_of_ne_nil data mode off h, rfl⟩

/-- Witness for C10 at a concrete two-sample batch. -/
theorem C10_center_is_coordinate_mean_witness :
    ([Sample.mk 0 "a" 1 2 0, Sample.mk 1 "b" 3 4 0] ≠ ([] : List Sample)) ∧
    (∃ mm : MapModel,
      create_map [Sample.mk 0 "a" 1 2 0, Sample.mk 1 "b" 3 4 0] Mode.spread 1 = some mm ∧
      mm.center = (([Sample.mk 0 "a" 1 2 0, Sample.mk 1 "b" 3 4 0].map Sample.latitude).sum /
          (([Sample.mk 0 "a" 1 2 0, Sample.mk 1 "b" 3 4 0].length : ℚ)),
        ([Sample.mk 0 "a" 1 2 0, Sample.mk 1 "b" 3 4 0].map Sample.longitude).sum /
          (([Sample.mk 0 "a" 1 2 0, Sample.mk 1 "b" 3 4 0].length : ℚ)))) :=
  ⟨by simp, C10_center_is_coordinate_mean.2 _ Mode.spread 1 (by simp)⟩

/-- C6: for every non-empty batch and both modes, the rendered map carries
exactly one connecting path, and its vertices are all samples' true
(unoffset) coordinates in batch input order. -/
theorem C6_path_in_batch_order :
    ∀ (data : List Sample) (mode : Mode) (off : ℝ), data ≠ [] →
      ∃ mm : MapModel, create_map data mode off = some mm ∧
        mm.path = data.map (fun s => (s.latitude, s.longitude)) := by
  intro data mode off h
  exact ⟨_, create_map_of_ne_nil data mode off h, rfl⟩

/-- Witness for C6 at a concrete two-sample batch in cluster mode. -/
theorem C6_path_in_batch_order_witness :
    ([Sample.mk 7 "a" 5 6 0, Sample.mk 3 "b" 1 2 0] ≠ ([] : List Sample)) ∧
    (∃ mm : MapModel,
      create_map [Sample.mk 7 "a" 5 6 0, Sample.mk 3 "b" 1 2 0] Mode.cluster 1 = some mm ∧
      mm.path = [Sample.mk 7 "a" 5 6 0, Sample.mk 3 "b" 1 2 0].map
        (fun s => (s.latitude, s.longitude))) :=
  ⟨by simp, C6_path_in_batch_order _ Mode.cluster 1 (by simp)⟩

/-! ### C4: row-level error handling of decode -/

theorem filterMap_length_of_all_isSome :
    ∀ l : List Row, (∀ r ∈ l, (parseRow r).isSome = true) →
      (l.filterMap parseRow).length = l.length := by
  intro l
  induction l with
  | nil => intro _; rfl
  | cons a t ih =>
    intro h
    obtain ⟨s, hs⟩ := Option.isSome_iff_exists.mp (h a (List.mem_cons_self _ _))
    rw [List.filterMap_cons, hs]
    simp only [List.length_cons]
    rw [ih (fun r hr => h r (List.mem_cons_of_mem _ hr))]

theorem filter_isNone_nil_of_all_isSome {l : List Row}
    (h : ∀ r ∈ l, (parseRow r).isSome = true) :
    l.filter (fun r => (parseRow r).isNone) = [] := by
  rw [List.filter_eq_nil_iff]
  intro a ha
  rw [Option.isNone_iff_eq_none]
  intro hn
  have := h a ha
  rw [hn] at this
  simp at this

/-- C4: decode drops exactly the rows whose Index cell is not an integer or
whose Latitude, Longitude or Inclination cell is not a float, keeping all
other rows in order with one warning per dropped row; one malformed row among
otherwise valid rows costs exactly that row and one warning; and decode fails
(EmptyBatchError) exactly when no row survives. -/
theorem C4_row_level_error_handling :
    (∀ r : Row, (parseRow r = none ↔
      parseInt r.indexCell = none ∨ parseFloat r.latitudeCell = none ∨
      parseFloat r.longitudeCell = none ∨ parseFloat r.inclinationCell = none)) ∧
    (∀ rows : List Row,
      (read_csv_with_warnings rows).1 = rows.filterMap parseRow ∧
      (read_csv_with_warnings rows).2 =
        (rows.filter (fun r => (parseRow r).isNone)).length ∧
      (read_csv_file rows = none ↔ rows.filterMap parseRow = [])) ∧
    (∀ (pre post : List Row) (bad : Row),
      (∀ r ∈ pre, (parseRow r).isSome = true) →
      (∀ r ∈ post, (parseRow r).isSome = true) →
      parseRow bad = none →
      (read_csv_with_warnings (pre ++ bad :: post)).1.length =
        pre.length + post.length ∧
      (read_csv_with_warnings (pre ++ bad :: post)).2 = 1) := by
  refine ⟨?_, ?_, ?_⟩
  · intro r
    unfold parseRow
    rcases parseInt r.indexCell with _ | i <;>
      rcases parseFloat r.latitudeCell with _ | la <;>
      rcases parseFloat r.longitudeCell with _ | lo <;>
      rcases parseFloat r.inclinationCell with _ | inc <;> simp
  · intro rows
    refine ⟨by rw [read_csv_with_warnings_spec], by rw [read_csv_with_warnings_spec], ?_⟩
    rw [read_csv_file_eq]
    split_ifs with h
    · simp [h]
    · simp [h]
  · intro pre post bad hpre hpost hbad
    rw [read_csv_with_warnings_spec]
    constructor
    · simp only [List.filterMap_append, List.filterMap_cons, hbad, List.length_append]
      rw [filterMap_length_of_all_isSome pre hpre, filterMap_length_of_all_isSome post hpost]
    · simp only [List.filter_append, List.filter_cons, hbad, Option.isNone_none, if_true,
        filter_isNone_nil_of_all_isSome hpre, filter_isNone_nil_of_all_isSome hpost]
      rfl

/-- Witness for C4: one malformed row between two valid rows yields two
samples and one warning. -/
theorem C4_row_level_error_handling_witness :
    ((∀ r ∈ [Row.mk "1" "t" "2" "3" "4"], (parseRow r).isSome = true) ∧
     (∀ r ∈ [Row.mk "2" "u" "5" "6" "7"], (parseRow r).isSome = true) ∧
     parseRow (Row.mk "x" "t" "2" "3" "4") = none) ∧
    (read_csv_with_warnings
        ([Row.mk "1" "t" "2" "3" "4"] ++ Row.mk "x" "t" "2" "3" "4" ::
          [Row.mk "2" "u" "5" "6" "7"])).1.length = 1 + 1 ∧
    (read_csv_with_warnings
        ([Row.mk "1" "t" "2" "3" "4"] ++ Row.mk "x" "t" "2" "3" "4" ::
          [Row.mk "2" "u" "5" "6" "7"])).2 = 1 := by
  refine ⟨⟨?_, ?_, ?_⟩, ?_⟩
  · intro r hr
    rw [List.mem_singleton] at hr
    subst hr
    rfl
  · intro r hr
    rw [List.mem_singleton] at hr
    subst hr
    rfl
  · rfl
  · exact C4_row_level_error_handling.2.2 [Row.mk "1" "t" "2" "3" "4"]
      [Row.mk "2" "u" "5" "6" "7"] (Row.mk "x" "t" "2" "3" "4")
      (by intro r hr; rw [List.mem_singleton] at hr; subst hr; rfl)
      (by intro r hr; rw [List.mem_singleton] at hr; subst hr; rfl)
      rfl

/-! ### C9: what loading does and does not guarantee about indices -/

/-- Counterexample to C9 as stated: loading two copies of a row with Index
cell "-1" succeeds and yields a batch whose indices are negative and
duplicated, so load-time validation enforces neither non-negativity nor
uniqueness of indices. -/
theorem C9_counterexample :
    (read_csv_file [Row.mk "-1" "t" "1" "2" "0", Row.mk "-1" "t" "1" "2" "0"]).map
        (fun l => l.map Sample.index) = some [-1, -1] ∧
    ¬ ((([-1, -1] : List ℤ).Nodup) ∧ ∀ i ∈ ([-1, -1] : List ℤ), 0 ≤ i) := by
  constructor
  · rfl
  · decide

/-- C9 amended: loading excludes exactly the rows whose Index is not an
integer or whose Latitude/Longitude/Inclination is not a float, fails only
when zero valid rows remain, and every loaded sample comes from a parseable
row; non-negativity and uniqueness of indices are not enforced. -/
theorem C9_load_exclusion :
    ∀ rows : List Row,
      (read_csv_file rows = none ↔ ∀ r ∈ rows, parseRow r = none) ∧
      (∀ l : List Sample, read_csv_file rows = some l →
        l = rows.filterMap parseRow ∧ ∀ s ∈ l, ∃ r ∈ rows, parseRow r = some s) := by
  intro rows
  constructor
  · rw [read_csv_file_eq]
    split_ifs with h
    · simp only [true_iff]
      exact List.filterMap_eq_nil_iff.mp h
    · simp only [false_iff]
      intro hall
      exact h (List.filterMap_eq_nil_iff.mpr hall)
  · intro l hl
    rw [read_csv_file_eq] at hl
    by_cases h : rows.filterMap parseRow = []
    · rw [if_pos h] at hl
      cases hl
    · rw [if_neg h] at hl
      obtain rfl : rows.filterMap parseRow = l := Option.some.inj hl
      constructor
      · rfl
      · intro s hs
        exact List.mem_filterMap.mp hs

/-! ### C3: the encode/decode round trip -/

/-- Counterexample to C3 as stated: for the empty batch (which has zero valid
entries), decoding the encoded rows yields the empty-batch failure rather
than an empty sample list, so the round-trip law does not hold universally. -/
theorem C3_roundtrip_counterexample :
    read_csv_file (convert_json_to_csv (Payload.mk [])) = none ∧
    (Payload.mk []).data.filterMap decodedEntry = [] := ⟨rfl, rfl⟩

/-- C3 amended: for every batch with at least one valid entry, decoding the
rows produced by encoding yields exactly the samples denoted by the batch's
valid entries, in original input order.  (Numeric values representable
without precision loss are exactly the finite decimals, which is what
`decodedEntry` accepts; an all-invalid or empty batch instead fails with
EmptyBatchError.) -/
theorem C3_roundtrip :
    ∀ p : Payload, p.data.filterMap decodedEntry ≠ [] →
      read_csv_file (convert_json_to_csv p) = some (p.data.filterMap decodedEntry) := by
  intro p h
  rw [read_csv_file_eq, decode_encode_filterMap, if_neg h]

/-- Witness for C3 at a one-entry batch mixing integer and string fields. -/
theorem C3_roundtrip_witness :
    (Payload.mk [JEntry.mk (some (JVal.jint 2)) (some (JVal.jstr "T"))
        (some (JVal.jint 1)) (some (JVal.jint 3)) (some (JVal.jstr "0.5"))]).data.filterMap
      decodedEntry ≠ [] ∧
    read_csv_file (convert_json_to_csv (Payload.mk [JEntry.mk (some (JVal.jint 2))
        (some (JVal.jstr "T")) (some (JVal.jint 1)) (some (JVal.jint 3))
        (some (JVal.jstr "0.5"))])) =
      some ((Payload.mk [JEntry.mk (some (JVal.jint 2)) (some (JVal.jstr "T"))
        (some (JVal.jint 1)) (some (JVal.jint 3))
        (some (JVal.jstr "0.5"))]).data.filterMap decodedEntry) :=
  ⟨by decide, C3_roundtrip _ (by decide)⟩

/-! ### C2: spread-mode grouping and offset formula -/

/-- C2: spread mode groups samples by their coordinates rounded to 5 decimal
places, keeping original batch order within each group; a singleton group is
displayed at its true position, and in a group of size `n > 1` the member at
0-based position `i` is displayed at the true position offset by
`cos/sin(2π·i/n)` times `base_offset · (1 + i / 8)`; the spread markers are
exactly this placement applied groupwise. -/
theorem C2_spread_grouping_and_placement :
    (∀ (off : ℝ) (data : List Sample),
      spreadMarkers off data = (buildGroups data).flatMap (fun g =>
        g.2.enum.map (fun is =>
          mkMarker (displayPos off g.2.length is.1 is.2.latitude is.2.longitude) is.2))) ∧
    (∀ (data : List Sample) (off : ℝ) (k : ℚ × ℚ) (entries : List Sample),
      (k, entries) ∈ buildGroups data →
      entries = data.filter (fun s => decide (sampleKey s = k)) ∧
      (entries.length = 1 → ∀ s ∈ entries,
        displayPos off entries.length 0 s.latitude s.longitude =
          ((s.latitude : ℝ), (s.longitude : ℝ))) ∧
      (1 < entries.length → ∀ (i : ℕ) (s : Sample), entries.get? i = some s →
        displayPos off entries.length i s.latitude s.longitude =
          ((s.latitude : ℝ) + Real.cos (2 * Real.pi * i / entries.length) *
              (off * (1 + ((i / 8 : ℕ) : ℝ))),
           (s.longitude : ℝ) + Real.sin (2 * Real.pi * i / entries.length) *
              (off * (1 + ((i / 8 : ℕ) : ℝ)))))) := by
  constructor
  · intro off data
    rfl
  · intro data off k entries hm
    refine ⟨(mem_buildGroups_eq_filter hm).1, ?_, ?_⟩
    · intro h1 s _
      unfold displayPos
      rw [if_neg (by omega)]
    · intro hn i s _
      unfold displayPos
      rw [if_pos hn]

/-- Witness for C2 at a concrete singleton group. -/
theorem C2_spread_grouping_and_placement_witness :
    ((sampleKey (Sample.mk 0 "t" 1 2 0), [Sample.mk 0 "t" 1 2 0]) ∈
      buildGroups [Sample.mk 0 "t" 1 2 0]) ∧
    [Sample.mk 0 "t" 1 2 0] =
      [Sample.mk 0 "t" 1 2 0].filter
        (fun s => decide (sampleKey s = sampleKey (Sample.mk 0 "t" 1 2 0))) :=
  ⟨List.mem_singleton.mpr rfl,
    ((C2_spread_grouping_and_placement.2 [Sample.mk 0 "t" 1 2 0] 1 _ _
      (List.mem_singleton.mpr rfl))).1⟩

/-! ### C7: distinctness and radii of the spread rings -/

/-- C7: in spread mode, a group of 8 samples sharing one true position gets 8
pairwise-distinct display positions, each within `base_offset` of the true
position (stated via squared Euclidean distance in degree space); in a group
of 9, the member at position 8 is placed on the second ring, at radius
`2 * base_offset`. -/
theorem C7_spread_ring_geometry :
    (∀ (off : ℝ) (lat lon : ℚ), 0 < off →
      (∀ i j : ℕ, i < 8 → j < 8 → i ≠ j →
        displayPos off 8 i lat lon ≠ displayPos off 8 j lat lon) ∧
      (∀ i : ℕ, i < 8 →
        ((displayPos off 8 i lat lon).1 - (lat : ℝ)) ^ 2 +
          ((displayPos off 8 i lat lon).2 - (lon : ℝ)) ^ 2 ≤ off ^ 2)) ∧
    (∀ (off : ℝ) (lat lon : ℚ),
      displayPos off 9 8 lat lon =
        ((lat : ℝ) + Real.cos (2 * Real.pi * 8 / 9) * (off * 2),
         (lon : ℝ) + Real.sin (2 * Real.pi * 8 / 9) * (off * 2))) := by
  constructor
  · intro off lat lon hoff
    constructor
    · intro i j hi hj hij heq
      unfold displayPos at heq
      rw [if_pos (by norm_num)] at heq
      rw [Nat.div_eq_of_lt hi, Nat.div_eq_of_lt hj] at heq
      have hr : off * (1 + ((0 : ℕ) : ℝ)) = off := by norm_num
      rw [hr] at heq
      have h1 := congrArg Prod.fst heq
      have h2 := congrArg Prod.snd heq
      simp only at h1 h2
      have hc : Real.cos (2 * Real.pi * i / 8) = Real.cos (2 * Real.pi * j / 8) :=
        mul_right_cancel₀ (ne_of_gt hoff) (by push_cast at h1 ⊢; linarith)
      have hs : Real.sin (2 * Real.pi * i / 8) = Real.sin (2 * Real.pi * j / 8) :=
        mul_right_cancel₀ (ne_of_gt hoff) (by push_cast at h2 ⊢; linarith)
      exact cos_sin_pair_injective (n := 8) hi hj hij ⟨by exact_mod_cast hc, by exact_mod_cast hs⟩
    · intro i hi
      unfold displayPos
      rw [if_pos (by norm_num), Nat.div_eq_of_lt hi]
      have hr : off * (1 + ((0 : ℕ) : ℝ)) = off := by norm_num
      rw [hr]
      simp only [add_sub_cancel_left]
      have : (Real.cos (2 * Real.pi * i / 8) * off) ^ 2 +
          (Real.sin (2 * Real.pi * i / 8) * off) ^ 2 = off ^ 2 := by
        have hcs := Real.cos_sq_add_sin_sq (2 * Real.pi * i / 8)
        nlinarith [hcs]
      push_cast
      rw [this]
  · intro off lat lon
    unfold displayPos
    rw [if_pos (by norm_num)]
    norm_num

/-- Witness for C7 with `base_offset = 1` at the origin. -/
theorem C7_spread_ring_geometry_witness :
    (0 : ℝ) < 1 ∧
    ((∀ i j : ℕ, i < 8 → j < 8 → i ≠ j →
        displayPos 1 8 i (0 : ℚ) (0 : ℚ) ≠ displayPos 1 8 j (0 : ℚ) (0 : ℚ)) ∧
      (∀ i : ℕ, i < 8 →
        ((displayPos 1 8 i (0 : ℚ) (0 : ℚ)).1 - ((0 : ℚ) : ℝ)) ^ 2 +
          ((displayPos 1 8 i (0 : ℚ) (0 : ℚ)).2 - ((0 : ℚ) : ℝ)) ^ 2 ≤ (1 : ℝ) ^ 2)) :=
  ⟨by norm_num, C7_spread_ring_geometry.1 1 0 0 (by norm_num)⟩

/-! ### C5: output-name disambiguation -/

set_option maxRecDepth 10000 in
/-- Counterexample to C5 as stated: with `base.csv`, `base_000.csv` through
`base_999.csv` and `base_1000.csv` all in use (and nothing else), the loop
returns `base__1001.csv`: past suffix 1000 the `[:-4]` re-derivation strips
only the digits and leaves the old underscore, so the produced name is not
the suffix-replaced `base_1001.csv` even though that name is unused. -/
theorem C5_name_disambiguation_counterexample :
    nextCsvName (fun s => s == "base.csv" || s.length == 12 || s == "base_1000.csv")
        1003 "base.csv" = "base__1001.csv" ∧
    (fun s : String => s == "base.csv" || s.length == 12 || s == "base_1000.csv")
        "base_1001.csv" = false ∧
    "base__1001.csv" ≠ "base_1001.csv" := by
  refine ⟨by decide, by decide, by decide⟩

/-- C5 amended: within the 3-digit suffix range (fewer than 1000 collisions),
the loop behaves as claimed: if the derived name `stem.csv` is in use, and
`stem_000.csv` through the (k-1)-th suffixed name are in use while the k-th
is not, the loop returns exactly `stem_<k:03d>.csv` - each iteration
re-derives the stem, replacing the previous suffix rather than concatenating.
Beyond suffix 1000 the re-derivation leaves an extra underscore (see the
counterexample). -/
theorem C5_name_disambiguation :
    ∀ (ex : String → Bool) (stem : String) (k : ℕ), k ≤ 999 →
      ex (stem ++ ".csv") = true →
      (∀ j, j < k → ex (stem ++ "_" ++ pad3 j ++ ".csv") = true) →
      ex (stem ++ "_" ++ pad3 k ++ ".csv") = false →
      nextCsvName ex (k + 2) (stem ++ ".csv") = stem ++ "_" ++ pad3 k ++ ".csv" :=
  fun ex stem k hk hbase hall hfree => nextCsvName_run ex stem k hk hbase hall hfree

/-- Witness for the amended C5: `base.csv` and `base_000.csv` in use,
`base_001.csv` free. -/
theorem C5_name_disambiguation_witness :
    (1 ≤ 999) ∧
    ((fun s : String => s == "base.csv" || s == "base_000.csv") "base.csv" = true) ∧
    nextCsvName (fun s : String => s == "base.csv" || s == "base_000.csv") 3
        ("base" ++ ".csv") = "base" ++ "_" ++ pad3 1 ++ ".csv" :=
  ⟨by decide, by decide,
    C5_name_disambiguation (fun s : String => s == "base.csv" || s == "base_000.csv")
      "base" 1 (by decide) (by decide)
      (by
        intro j hj
        have hj0 : j = 0 := by omega
        subst hj0
        decide)
      (by decide)⟩

/-! ### C8: the ingestion response -/

/-- Counterexample to C8 as stated: a non-empty batch whose single entry is
malformed makes the rendering subprocess fail, yet the handler still responds
200/"ok" with no artifact reference, so the artifact reference can be absent
although the batch was not empty (and that case is reported as success). -/
theorem C8_ingestion_counterexample :
    do_POST "/data_collector" "T"
        (some (Payload.mk [JEntry.mk (some (JVal.jstr "x")) none none none none])) =
      PostResponse.mk 200 (some "ok") (some "received_data/data_T.json") none none ∧
    (Payload.mk [JEntry.mk (some (JVal.jstr "x")) none none none none]).data ≠ [] := by
  refine ⟨by decide, by decide⟩

/-- C8 amended: the handler is a total function of the request.  A POST to
any other path gets 404; an unparsable body gets 500 with an error message (a
non-2xx status, so a malformed batch never crashes the handler); a parsed
body always gets 200 with status "ok" and the stored raw-artifact name, and
the artifact reference is present exactly when the batch is non-empty and the
rendering subprocess exited successfully - it is absent both when rendering
was skipped for an empty batch and when rendering failed. -/
theorem C8_ingestion_response :
    ∀ (ts path : String) (payload : Option Payload),
      (path ≠ "/data_collector" →
        do_POST path ts payload = PostResponse.mk 404 none none none none) ∧
      (do_POST "/data_collector" ts none =
        PostResponse.mk 500 none none none (some "json error")) ∧
      (∀ p : Payload, do_POST "/data_collector" ts (some p) =
        PostResponse.mk 200 (some "ok") (some ("received_data/data_" ++ ts ++ ".json"))
          (if p.data ≠ [] then
            (if csv_to_map_exit (convert_json_to_csv p) Mode.spread 0.00002 = 0
             then some ("/created_maps/map_" ++ ts ++ ".html") else none)
           else none) none) ∧
      (∀ p : Payload, ((do_POST "/data_collector" ts (some p)).map.isSome = true ↔
        p.data ≠ [] ∧
          csv_to_map_exit (convert_json_to_csv p) Mode.spread 0.00002 = 0)) := by
  intro ts path payload
  refine ⟨?_, ?_, ?_, ?_⟩
  · intro h
    unfold do_POST
    rw [if_pos h]
  · unfold do_POST
    rw [if_neg (by simp)]
  · intro p
    unfold do_POST
    rw [if_neg (by simp)]
  · intro p
    unfold do_POST
    rw [if_neg (by simp)]
    simp only
    by_cases h : p.data ≠ []
    · rw [if_pos h]
      by_cases h2 : csv_to_map_exit (convert_json_to_csv p) Mode.spread 0.00002 = 0
      · rw [if_pos h2]
        simp [h, h2]
      · rw [if_neg h2]
        simp [h2]
    · rw [if_neg h]
      simp [h]

/-- Witness for the amended C8 at a wrong-path request. -/
theorem C8_ingestion_response_witness :
    ("/x" ≠ "/data_collector") ∧
    do_POST "/x" "T" none = PostResponse.mk 404 none none none none :=
  ⟨by decide, (C8_ingestion_response "T" "/x" none).1 (by decide)⟩

/-- Witness for the amended C9 at a concrete one-row load. -/
theorem C9_load_exclusion_witness :
    read_csv_file [Row.mk "1" "t" "2" "3" "4"] =
      some ([Row.mk "1" "t" "2" "3" "4"].filterMap parseRow) ∧
    ([Row.mk "1" "t" "2" "3" "4"].filterMap parseRow =
        [Row.mk "1" "t" "2" "3" "4"].filterMap parseRow ∧
      ∀ s ∈ [Row.mk "1" "t" "2" "3" "4"].filterMap parseRow,
        ∃ r ∈ [Row.mk "1" "t" "2" "3" "4"], parseRow r = some s) :=
  ⟨rfl, (C9_load_exclusion [Row.mk "1" "t" "2" "3" "4"]).2
    ([Row.mk "1" "t" "2" "3" "4"].filterMap parseRow) rfl⟩
